import Mathlib

/-!
Shallow embedding of the KMS scan-out surface core (`src/backend/drm/surface/mod.rs`),
together with spec-modelled fragments of the atomic/legacy engines, the plane-claim
registry and the geometry helpers whose sources live outside this tree.

Conventions of the embedding:
* kernel object handles (planes, connectors, crtcs, framebuffers, blobs) are `Nat`;
* `f64` arithmetic is modelled over `ℚ`;
* `i32` arithmetic is `Int` with explicit saturation where the source saturates;
* fallible operations return `Except`; ioctl side effects are recorded as an
  explicit `List KernelCall` trace so that "no kernel call happens" is provable.
-/

namespace DrmSpec

/-- The type of a DRM plane (primary / overlay / cursor). -/
inductive PlaneType
  | primary
  | overlay
  | cursor
  deriving DecidableEq, Repr

/-- Output transforms (smithay `utils::Transform`). -/
inductive Transform
  | normal
  | rot90
  | rot180
  | rot270
  | flipped
  | flipped90
  | flipped180
  | flipped270
  deriving DecidableEq, Repr

/-- A 2-d point. -/
structure Point (α : Type) where
  x : α
  y : α
  deriving DecidableEq, Repr

/-- A 2-d size. -/
structure Size (α : Type) where
  w : α
  h : α
  deriving DecidableEq, Repr

/-- A rectangle: location plus size. -/
structure Rect (α : Type) where
  loc : Point α
  size : Size α
  deriving DecidableEq, Repr

/-- Cast an integer size to rationals (the source's `to_f64`). -/
def Size.toQ (s : Size Int) : Size ℚ := ⟨(s.w : ℚ), (s.h : ℚ)⟩

/-- Cast an integer rectangle to rationals (the source's `to_f64`). -/
def Rect.toQ (r : Rect Int) : Rect ℚ :=
  ⟨⟨(r.loc.x : ℚ), (r.loc.y : ℚ)⟩, r.size.toQ⟩

/-- The error kinds of `drm::error::Error` used by the surface core. -/
inductive Error
  | access (errmsg : String)
  | deviceInactive
  | noPlane
  | nonPrimaryPlane (plane : Nat)
  | noFramebuffer (plane : Nat)
  | unsupportedPlaneConfiguration (plane : Nat)
  | incompatibleEncoder
  | modeUnsupported
  | testFailed
  deriving DecidableEq, Repr

/-- Configuration of a single plane (`PlaneConfig` in the source).
`src` is in buffer coordinates (`f64`, modelled as `ℚ`), `dst` in physical
coordinates (`i32`, modelled as `Int`). -/
structure PlaneConfig where
  src : Rect ℚ
  dst : Rect Int
  transform : Transform
  alpha : ℚ
  damage_clips : Option Nat
  fb : Nat
  deriving DecidableEq, Repr

/-- State of a single plane (`PlaneState` in the source): a handle plus an
optional configuration (`none` disables the plane). -/
structure PlaneState where
  handle : Nat
  config : Option PlaneConfig
  deriving DecidableEq, Repr

/-- A marshalled damage clip (`drm_ffi::drm_mode_rect`): four `i32` fields. -/
structure ModeRect where
  x1 : Int
  y1 : Int
  x2 : Int
  y2 : Int
  deriving DecidableEq, Repr

/-- Kernel calls issued by the embedded operations; the trace lets theorems
state that an operation issues no (or exactly these) ioctls. -/
inductive KernelCall
  | setCrtc (fb : Nat) (mode : Nat)
  | pageFlip (fb : Nat) (event : Bool)
  | createBlob (rects : List ModeRect)
  deriving DecidableEq, Repr

/-- `ensure_legacy_planes` from `surface/mod.rs`: collapse a plane-state
sequence into the single framebuffer the legacy engine can drive.
`plane_type` is the kernel query of the same name (a device lookup, which may
itself fail with an `Error`). Mirrors the source: only the FIRST element of
the sequence is inspected; the checks run in source order. -/
def ensure_legacy_planes (plane_type : Nat → Except Error PlaneType)
    (planes : List PlaneState) : Except Error Nat :=
  match planes with
  | [] => .error .noPlane
  | state :: _ =>
    match plane_type state.handle with
    | .error e => .error e
    | .ok t =>
      if t ≠ PlaneType.primary then
        .error (.nonPrimaryPlane state.handle)
      else
        match state.config with
        | none => .error (.noFramebuffer state.handle)
        | some config =>
          if config.dst.loc ≠ (⟨0, 0⟩ : Point Int) then
            .error (.unsupportedPlaneConfiguration state.handle)
          else if config.src.loc ≠ (⟨0, 0⟩ : Point ℚ) ∨
              config.src.size ≠ config.dst.size.toQ then
            .error (.unsupportedPlaneConfiguration state.handle)
          else if config.transform ≠ Transform.normal then
            .error (.unsupportedPlaneConfiguration state.handle)
          else
            .ok config.fb

/-- A pipeline snapshot: active mode plus attached connector set.
Modelled from the spec: the engines' `current`/`pending` state (the engine
modules are not under this tree); equality is value equality. -/
structure Snapshot where
  mode : Nat
  connectors : Finset Nat
  deriving DecidableEq

/-- Engine state: the two snapshots every engine keeps.
Modelled from the spec: shared shape of the atomic and legacy engines. -/
structure EngineState where
  current : Snapshot
  pending : Snapshot
  deriving DecidableEq

/-- `commit_pending`: true iff the pending snapshot differs from the current
one by value. Modelled from the spec table for the engines. -/
def commit_pending (st : EngineState) : Bool :=
  decide (st.pending ≠ st.current)

/-- Legacy `test_state` as dispatched by the façade (`DrmSurface::test_state`):
validate via `ensure_legacy_planes`; with `allow_modeset` perform a real
modeset (`SetCrtc`, spec-modelled `test_buffer`) whose kernel outcome is the
parameter `ko`; otherwise succeed without touching the kernel. -/
def testStateLegacy (plane_type : Nat → Except Error PlaneType) (st : EngineState)
    (ko : Except Error Unit) (planes : List PlaneState) (allow_modeset : Bool) :
    Except Error Unit × List KernelCall :=
  match ensure_legacy_planes plane_type planes with
  | .error e => (.error e, [])
  | .ok fb =>
    if allow_modeset then
      (ko, [KernelCall.setCrtc fb st.pending.mode])
    else
      (.ok (), [])

/-- Legacy `commit` as dispatched by the façade: validate, then `SetCrtc`
against the pending mode; on kernel success `current ← pending`
(engine body modelled from the spec, §4.4). -/
def commitLegacy (plane_type : Nat → Except Error PlaneType) (st : EngineState)
    (ko : Except Error Unit) (planes : List PlaneState) :
    Except Error EngineState × List KernelCall :=
  match ensure_legacy_planes plane_type planes with
  | .error e => (.error e, [])
  | .ok fb =>
    match ko with
    | .ok _ => (.ok ⟨st.pending, st.pending⟩, [KernelCall.setCrtc fb st.pending.mode])
    | .error e => (.error e, [KernelCall.setCrtc fb st.pending.mode])

/-- Legacy `page_flip` as dispatched by the façade: validate, then issue a
`PageFlip` ioctl (engine body modelled from the spec, §4.4). -/
def pageFlipLegacy (plane_type : Nat → Except Error PlaneType)
    (ko : Except Error Unit) (planes : List PlaneState) (event : Bool) :
    Except Error Unit × List KernelCall :=
  match ensure_legacy_planes plane_type planes with
  | .error e => (.error e, [])
  | .ok fb => (ko, [KernelCall.pageFlip fb event])

/-- Engine variant tag of a surface (`DrmSurfaceInternal`). -/
inductive SurfaceInternal
  | atomic
  | legacy
  deriving DecidableEq, Repr

/-- `DrmSurface::clear_plane`: dispatch on the engine variant; the atomic
branch delegates to the atomic engine (an environment parameter here), the
legacy branch fails immediately with `NonPrimaryPlane` and no ioctl. -/
def clear_plane (internal : SurfaceInternal)
    (atomicClear : Nat → Except Error Unit × List KernelCall) (plane : Nat) :
    Except Error Unit × List KernelCall :=
  match internal with
  | .atomic => atomicClear plane
  | .legacy => (.error (.nonPrimaryPlane plane), [])

/-- The plane-claim registry. Modelled from the spec (§4.1): the
`PlaneClaimStorage` map `plane-id → (crtc-id, refcount)` lives in the `device`
module, which is not under this tree. Entries are `(plane, crtc, refcount)`. -/
abbrev Registry := List (Nat × Nat × Nat)

/-- Look up a plane in the registry: its crtc and refcount, if present. -/
def Registry.lookup : Registry → Nat → Option (Nat × Nat)
  | [], _ => none
  | (q, c0, n) :: rest, p => if q = p then some (c0, n) else Registry.lookup rest p

/-- Modelled from the spec (§4.1): `claim(plane, crtc)` succeeds when no entry
exists (insert with count 1) or the existing entry has the same crtc
(increment); otherwise returns none. -/
def Registry.claim : Registry → Nat → Nat → Option Registry
  | [], p, c => some [(p, c, 1)]
  | (q, c0, n) :: rest, p, c =>
    if q = p then
      if c0 = c then some ((q, c0, n + 1) :: rest) else none
    else
      (Registry.claim rest p c).map (fun r => (q, c0, n) :: r)

/-- Modelled from the spec (§4.1): dropping a claim token decrements the
refcount; a zero count removes the entry. -/
def Registry.release : Registry → Nat → Registry
  | [], _ => []
  | (q, c0, n) :: rest, p =>
    if q = p then (if n ≤ 1 then rest else (q, c0, n - 1) :: rest)
    else (q, c0, n) :: Registry.release rest p

/-- Registry well-formedness: plane keys are distinct (the map shape) and
every live entry has a positive refcount. -/
def Registry.WF (r : Registry) : Prop :=
  (r.map (fun e => e.1)).Nodup ∧ ∀ e ∈ r, 1 ≤ e.2.2

/-- Saturation bounds of `i32`. -/
def i32max : Int := 2 ^ 31 - 1

/-- Lower saturation bound of `i32`. -/
def i32min : Int := -(2 ^ 31)

/-- `i32::saturating_add` over the mathematical integers. -/
def saturatingAdd (a b : Int) : Int := max i32min (min i32max (a + b))

/-- Modelled from the spec: `Rectangle::upscale` (the `utils` geometry module
is not under this tree) multiplies location and size per axis by the scale. -/
def upscaleRect (r : Rect ℚ) (s : Size ℚ) : Rect ℚ :=
  ⟨⟨r.loc.x * s.w, r.loc.y * s.h⟩, ⟨r.size.w * s.w, r.size.h * s.h⟩⟩

/-- Floor of a rational as an integer, computably (equals `Int.floor`; see
`qfloor_eq`). -/
def qfloor (q : ℚ) : Int := q.num / (q.den : Int)

/-- Ceiling of a rational as an integer, computably (equals `Int.ceil`; see
`qceil_eq`). -/
def qceil (q : ℚ) : Int := -qfloor (-q)

/-- Modelled from the spec: `Rectangle::to_i32_up` rounds outward to the
smallest integer rectangle containing the rational one (location floors,
far edge ceils). -/
def toI32Up (r : Rect ℚ) : Rect Int :=
  ⟨⟨qfloor r.loc.x, qfloor r.loc.y⟩,
   ⟨qceil (r.loc.x + r.size.w) - qfloor r.loc.x,
    qceil (r.loc.y + r.size.h) - qfloor r.loc.y⟩⟩

/-- The per-rectangle transform inside `PlaneDamageClips::from_damage`:
upscale by `src.size / dst.size` per axis, translate by `src.loc`, round
outward to `i32`, and marshal as a `drm_mode_rect` quad with saturating far
edges. `f64` arithmetic is modelled over `ℚ`. -/
def damageToModeRect (src : Rect ℚ) (dst : Rect Int) (r : Rect Int) : ModeRect :=
  let scale : Size ℚ := ⟨src.size.w / (dst.size.w : ℚ), src.size.h / (dst.size.h : ℚ)⟩
  let r1 := upscaleRect r.toQ scale
  let r2 : Rect ℚ := ⟨⟨r1.loc.x + src.loc.x, r1.loc.y + src.loc.y⟩, r1.size⟩
  let r3 := toI32Up r2
  ⟨r3.loc.x, r3.loc.y, saturatingAdd r3.loc.x r3.size.w, saturatingAdd r3.loc.y r3.size.h⟩

/-- `PlaneDamageInner`: device handle elided; only the optional blob id is
relevant (it is `some` from construction until the destructor takes it). -/
structure PlaneDamageInner where
  blob : Option Nat
  deriving DecidableEq, Repr

/-- `PlaneDamageClips`: shared handle over a kernel blob id. -/
structure PlaneDamageClips where
  inner : PlaneDamageInner
  deriving DecidableEq, Repr

/-- `Clone for PlaneDamageClips` clones the shared pointer: the clone sees the
same inner value. -/
def PlaneDamageClips.clone (h : PlaneDamageClips) : PlaneDamageClips := h

/-- The `blob()` accessor reads `inner.blob` and unwraps it; the unwrap
succeeds exactly when this is `some`. -/
def PlaneDamageClips.blobValue (h : PlaneDamageClips) : Option Nat := h.inner.blob

/-- `PlaneDamageClips::from_damage`: map every damage rectangle through
`damageToModeRect`; if the resulting list is empty return `ok none` without
touching the kernel, otherwise create a property blob (`createBlob` is the
kernel ioctl, recorded in the trace) and wrap its id. -/
def from_damage (createBlob : List ModeRect → Except String Nat)
    (src : Rect ℚ) (dst : Rect Int) (damage : List (Rect Int)) :
    Except String (Option PlaneDamageClips) × List KernelCall :=
  let rects := damage.map (damageToModeRect src dst)
  if rects.isEmpty then
    (.ok none, [])
  else
    match createBlob rects with
    | .error e => (.error e, [KernelCall.createBlob rects])
    | .ok blobId => (.ok (some ⟨⟨some blobId⟩⟩), [KernelCall.createBlob rects])

/-- The fourcc code of `ARGB8888` (little-endian `AR24`). -/
def argb8888 : Nat := 0x34325241

/-- Raw value of `DRM_FORMAT_MOD_INVALID`. -/
def modInvalidRaw : Nat := 0x00ffffffffffffff

/-- Buffer format modifiers, abstracted to the cases the surface core
distinguishes. -/
inductive Modifier
  | invalid
  | linear
  | other (raw : Nat)
  deriving DecidableEq, Repr

/-- `Modifier::from(u64)`: 0 is `LINEAR`, the all-ones-56-bit pattern is
`INVALID`, anything else is an ordinary vendor modifier. -/
def modifierFrom (raw : Nat) : Modifier :=
  if raw = 0 then .linear else if raw = modInvalidRaw then .invalid else .other raw

/-- A `(fourcc, modifier)` pair (`allocator::Format`). -/
structure Format where
  code : Nat
  modifier : Modifier
  deriving DecidableEq, Repr

/-- One `drm_ffi::drm_format_modifier` record of the `IN_FORMATS` blob:
a 64-bit `formats` bitmask, an `offset` into the fourcc array, and the raw
modifier value. -/
structure FormatModifier where
  formats : Nat
  offset : Nat
  modifier : Nat
  deriving DecidableEq, Repr

/-- The decoded `IN_FORMATS` blob: fourcc array plus modifier records
(`count_modifiers` is the length of `modifiers`). -/
structure FormatModifierBlob where
  formats : List Nat
  modifiers : List FormatModifier
  deriving DecidableEq, Repr

/-- The pairs the driver advertises through an `IN_FORMATS` blob, decoded the
way `supported_formats` walks it: for every modifier record and every set bit
`j` of its 64-bit mask, parse `formats[j + offset]` (out-of-range reads yield
the raw value 0) and pair it with the record's modifier. -/
def blobFormats (tryFourcc : Nat → Option Nat) (b : FormatModifierBlob) : List Format :=
  b.modifiers.flatMap (fun m =>
    (List.range 64).filterMap (fun j =>
      if m.formats.testBit j then
        (tryFourcc (b.formats.getD (j + m.offset) 0)).map
          (fun code => Format.mk code (modifierFrom m.modifier))
      else none))

/-- Device-side environment of `DrmSurface::supported_formats` for one plane:
the plane's legacy format list, the `AddFB2Modifiers` capability query, the
`IN_FORMATS` property lookup (`ok none` when the property is absent), the
plane-type query, and the fourcc decoder of the allocator crate. -/
structure FormatEnv where
  getPlaneFormats : Except String (List Nat)
  capAddFb2 : Except String Nat
  inFormatsQuery : Except String (Option FormatModifierBlob)
  planeType : Except Error PlaneType
  tryFourcc : Nat → Option Nat

/-- The fourccs collected from the plane's legacy format list (the seeding
loop of `supported_formats`). -/
def collectedCodes (env : FormatEnv) : List Nat :=
  match env.getPlaneFormats with
  | .ok codes => codes.filterMap env.tryFourcc
  | .error _ => []

/-- The seeding loop of `supported_formats`: each parsed legacy fourcc paired
with the `INVALID` modifier. -/
def seedFormats (tf : Nat → Option Nat) (codes : List Nat) : List Format :=
  (codes.filterMap tf).map (fun c => Format.mk c Modifier.invalid)

/-- The cursor fallback loop of `supported_formats`: on a cursor plane add a
`LINEAR` variant of every collected format, otherwise leave the set alone. -/
def cursorAugment (t : PlaneType) (seeds : List Format) : List Format :=
  if t = PlaneType.cursor then
    seeds ++ seeds.map (fun f => Format.mk f.code Modifier.linear)
  else
    seeds

/-- The final fallback of `supported_formats`: substitute the safe
`(ARGB8888, INVALID)` default when nothing was collected. -/
def finalizeFormats (L : List Format) : List Format :=
  if L.isEmpty then [Format.mk argb8888 Modifier.invalid] else L

/-- `DrmSurface::supported_formats`: seed with `(code, INVALID)` from the
legacy format list; with the `AddFB2Modifiers` capability add every pair the
`IN_FORMATS` blob advertises; otherwise, on a cursor plane, add a `LINEAR`
variant of every collected format; finally fall back to
`(ARGB8888, INVALID)` when nothing was collected. The result is a list with
set semantics (the source uses a `HashSet`; membership is what matters). -/
def supported_formats (env : FormatEnv) : Except Error (List Format) :=
  match env.getPlaneFormats with
  | .error e => .error (.access e)
  | .ok codes =>
    let seeds := seedFormats env.tryFourcc codes
    let step : Except Error (List Format) :=
      match env.capAddFb2 with
      | .ok 1 =>
        match env.inFormatsQuery with
        | .error e => .error (.access e)
        | .ok none => .ok seeds
        | .ok (some blob) => .ok (seeds ++ blobFormats env.tryFourcc blob)
      | _ =>
        match env.planeType with
        | .error e => .error e
        | .ok t => .ok (cursorAugment t seeds)
    match step with
    | .error e => .error e
    | .ok formats => .ok (finalizeFormats formats)

/-- Validation environment for connector bookkeeping. Modelled from the spec
(§4.3): whether a connector has an encoder compatible with the crtc, and
whether a connector supports a mode. -/
structure ConnEnv where
  encoderCompatible : Nat → Bool
  supportsMode : Nat → Nat → Bool

/-- Modelled from the spec (§4.3): `add_connector` verifies encoder
compatibility and support of the pending mode, then adds to
`pending.connectors`. -/
def add_connector (env : ConnEnv) (c : Nat) (st : EngineState) : Except Error EngineState :=
  if ¬ env.encoderCompatible c then .error .incompatibleEncoder
  else if ¬ env.supportsMode c st.pending.mode then .error .modeUnsupported
  else .ok { st with pending := { st.pending with connectors := insert c st.pending.connectors } }

/-- Modelled from the spec (§4.3): `remove_connector` removes from
`pending.connectors`; idempotent. -/
def remove_connector (c : Nat) (st : EngineState) : EngineState :=
  { st with pending := { st.pending with connectors := st.pending.connectors.erase c } }

/-- Modelled from the spec (§4.3): `set_connectors` validates every element
like `add_connector` and replaces `pending.connectors` all-or-nothing. -/
def set_connectors (env : ConnEnv) (l : List Nat) (st : EngineState) : Except Error EngineState :=
  if l.all (fun c => env.encoderCompatible c && env.supportsMode c st.pending.mode) then
    .ok { st with pending := { st.pending with connectors := l.toFinset } }
  else
    .error .incompatibleEncoder

/-- Modelled from the spec (§4.3): `use_mode` verifies every pending connector
supports the mode, then sets `pending.mode`. -/
def use_mode (env : ConnEnv) (m : Nat) (st : EngineState) : Except Error EngineState :=
  if ∀ c ∈ st.pending.connectors, env.supportsMode c m then
    .ok { st with pending := { st.pending with mode := m } }
  else
    .error .modeUnsupported

/-- Modelled from the spec (§4.3/§4.4): a successful commit (or page-flip)
sets `current ← pending`; a failed one leaves both snapshots untouched.
`ok` abstracts the kernel outcome of the commit ioctl. -/
def commitEngine (ok : Bool) (st : EngineState) : Except Error EngineState :=
  if ok then .ok ⟨st.pending, st.pending⟩ else .error .deviceInactive

/-- The surface operations as events, for stating "until the next mutator". -/
inductive Op
  | addConnector (c : Nat)
  | removeConnector (c : Nat)
  | setConnectors (l : List Nat)
  | useMode (m : Nat)
  | commitOp (ok : Bool)
  | pageFlipOp (ok : Bool)
  | testStateOp
  deriving DecidableEq, Repr

/-- The four mutating operations named by `commit_pending`'s contract. -/
def Op.isMutator : Op → Bool
  | .addConnector _ => true
  | .removeConnector _ => true
  | .setConnectors _ => true
  | .useMode _ => true
  | _ => false

/-- State after one operation: failed fallible operations leave the state as
it was (the caller keeps the old snapshots). -/
def applyOp (env : ConnEnv) (st : EngineState) : Op → EngineState
  | .addConnector c =>
    match add_connector env c st with
    | .ok s => s
    | .error _ => st
  | .removeConnector c => remove_connector c st
  | .setConnectors l =>
    match set_connectors env l st with
    | .ok s => s
    | .error _ => st
  | .useMode m =>
    match use_mode env m st with
    | .ok s => s
    | .error _ => st
  | .commitOp ok =>
    match commitEngine ok st with
    | .ok s => s
    | .error _ => st
  | .pageFlipOp ok =>
    match commitEngine ok st with
    | .ok s => s
    | .error _ => st
  | .testStateOp => st

/-- Run a sequence of operations. -/
def runOps (env : ConnEnv) (ops : List Op) (st : EngineState) : EngineState :=
  ops.foldl (applyOp env) st

instance {ε α : Type} [DecidableEq ε] [DecidableEq α] : DecidableEq (Except ε α) := fun a b =>
  match a, b with
  | .error e1, .error e2 =>
    if h : e1 = e2 then .isTrue (by rw [h]) else .isFalse (by intro hc; cases hc; exact h rfl)
  | .error _, .ok _ => .isFalse (by intro hc; cases hc)
  | .ok _, .error _ => .isFalse (by intro hc; cases hc)
  | .ok a1, .ok a2 =>
    if h : a1 = a2 then .isTrue (by rw [h]) else .isFalse (by intro hc; cases hc; exact h rfl)

/-- Handles alive in a program: those returned by `from_damage` plus their
clones. The `Drop` destructor is the only place the inner blob is taken, so
every handle an accessor can run on is of this shape. -/
inductive LiveHandle : PlaneDamageClips → Prop
  | ofFromDamage (createBlob : List ModeRect → Except String Nat) (src : Rect ℚ)
      (dst : Rect Int) (damage : List (Rect Int)) (h : PlaneDamageClips)
      (trace : List KernelCall)
      (heq : from_damage createBlob src dst damage = (.ok (some h), trace)) :
      LiveHandle h
  | ofClone (h : PlaneDamageClips) (hl : LiveHandle h) : LiveHandle h.clone

/-- Fixture: a plane-type query that reports every plane as primary. -/
def ptPrim : Nat → Except Error PlaneType := fun _ => .ok PlaneType.primary

/-- Fixture: an engine state with mode 0 and no connectors on both sides. -/
def st00 : EngineState := ⟨⟨0, ∅⟩, ⟨0, ∅⟩⟩

/-- Fixture: a full-surface 100×100 plane configuration that passes every
legacy check, on framebuffer 5. -/
def cfg0 : PlaneConfig :=
  { src := ⟨⟨0, 0⟩, ⟨100, 100⟩⟩
    dst := ⟨⟨0, 0⟩, ⟨100, 100⟩⟩
    transform := Transform.normal
    alpha := 1
    damage_clips := none
    fb := 5 }

/-- Fixture: a plane state for plane 1 with configuration `cfg0`. -/
def s0 : PlaneState := ⟨1, some cfg0⟩

/-- Fixture: a blob-creation ioctl that always hands out blob id 7. -/
def cb0 : List ModeRect → Except String Nat := fun _ => .ok 7

/-- Fixture: a 100×100 source rectangle at the origin, in buffer space. -/
def srcQ : Rect ℚ := ⟨⟨0, 0⟩, ⟨100, 100⟩⟩

/-- Fixture: a 100×100 destination rectangle at the origin, physical space. -/
def dstI : Rect Int := ⟨⟨0, 0⟩, ⟨100, 100⟩⟩

/-- Fixture: one 10×10 damage rectangle at the origin. -/
def d0 : Rect Int := ⟨⟨0, 0⟩, ⟨10, 10⟩⟩

/-- Fixture: a format environment for an overlay plane without modifier
support, advertising only `ARGB8888` in the legacy list. -/
def envOverlay : FormatEnv :=
  { getPlaneFormats := .ok [argb8888]
    capAddFb2 := .ok 0
    inFormatsQuery := .ok none
    planeType := .ok PlaneType.overlay
    tryFourcc := fun n => some n }

/-- Fixture: a cursor plane without modifier support whose legacy format list
contains `ARGB8888`. -/
def envCursor : FormatEnv :=
  { getPlaneFormats := .ok [argb8888]
    capAddFb2 := .ok 0
    inFormatsQuery := .ok none
    planeType := .ok PlaneType.cursor
    tryFourcc := fun n => some n }

/-- Fixture: a cursor plane without modifier support whose legacy format list
is empty. -/
def envCursorEmpty : FormatEnv :=
  { getPlaneFormats := .ok []
    capAddFb2 := .ok 0
    inFormatsQuery := .ok none
    planeType := .ok PlaneType.cursor
    tryFourcc := fun n => some n }

/-- Fixture: a validation environment accepting every connector and mode. -/
def envConnAll : ConnEnv := ⟨fun _ => true, fun _ _ => true⟩

/-! ### Theorems -/

/-- Success characterization of `ensure_legacy_planes`: it hands back a
framebuffer exactly when the FIRST plane state is primary with a present
config at the origin, un-cropped, un-scaled and untransformed. -/
theorem ensure_legacy_planes_ok_iff (pt : Nat → Except Error PlaneType)
    (planes : List PlaneState) (fb : Nat) :
    ensure_legacy_planes pt planes = .ok fb ↔
      ∃ s rest cfg, planes = s :: rest ∧ pt s.handle = .ok PlaneType.primary ∧
        s.config = some cfg ∧ cfg.dst.loc = (⟨0, 0⟩ : Point Int) ∧
        cfg.src.loc = (⟨0, 0⟩ : Point ℚ) ∧ cfg.src.size = cfg.dst.size.toQ ∧
        cfg.transform = Transform.normal ∧ cfg.fb = fb := by
  cases planes with
  | nil => simp [ensure_legacy_planes]
  | cons s rest =>
    cases hpt : pt s.handle with
    | error e => simp [ensure_legacy_planes, hpt]
    | ok t =>
      cases hc : s.config with
      | none => cases t <;> simp [ensure_legacy_planes, hpt, hc]
      | some cfg =>
        cases t with
        | overlay => simp [ensure_legacy_planes, hpt, hc]
        | cursor => simp [ensure_legacy_planes, hpt, hc]
        | primary =>
          by_cases h1 : cfg.dst.loc = (⟨0, 0⟩ : Point Int)
          · by_cases h2 : cfg.src.loc = (⟨0, 0⟩ : Point ℚ)
            · by_cases h3 : cfg.src.size = cfg.dst.size.toQ
              · by_cases h4 : cfg.transform = Transform.normal
                · simp [ensure_legacy_planes, hpt, hc, h1, h2, h3, h4, eq_comm]
                · simp [ensure_legacy_planes, hpt, hc, h1, h2, h3, h4]
              · simp [ensure_legacy_planes, hpt, hc, h1, h2, h3]
            · simp [ensure_legacy_planes, hpt, hc, h1, h2]
          · simp [ensure_legacy_planes, hpt, hc, h1]

/-- C1 (amended): legacy `test_state`/`commit`/`page_flip` validate the plane
sequence before any kernel call, but (a) only the FIRST plane state is
inspected — later ones are ignored, so "exactly one plane state" is not
enforced — and (b) the dedicated unsupported-plane-configuration error covers
only the geometry/transform violations, while an empty sequence yields
`NoPlane`, a non-primary first plane `NonPrimaryPlane`, and an absent config
`NoFramebuffer`. On any validation error no kernel call is issued. -/
theorem legacy_validation_spec (pt : Nat → Except Error PlaneType) (st : EngineState)
    (ko : Except Error Unit) (planes : List PlaneState) (am ev : Bool) :
    (∀ fb, ensure_legacy_planes pt planes = .ok fb ↔
      ∃ s rest cfg, planes = s :: rest ∧ pt s.handle = .ok PlaneType.primary ∧
        s.config = some cfg ∧ cfg.dst.loc = (⟨0, 0⟩ : Point Int) ∧
        cfg.src.loc = (⟨0, 0⟩ : Point ℚ) ∧ cfg.src.size = cfg.dst.size.toQ ∧
        cfg.transform = Transform.normal ∧ cfg.fb = fb) ∧
    (∀ e, ensure_legacy_planes pt planes = .error e →
      testStateLegacy pt st ko planes am = (.error e, []) ∧
      commitLegacy pt st ko planes = (.error e, []) ∧
      pageFlipLegacy pt ko planes ev = (.error e, [])) ∧
    (planes = [] → ensure_legacy_planes pt planes = .error .noPlane) ∧
    (∀ s rest t, planes = s :: rest → pt s.handle = .ok t → t ≠ PlaneType.primary →
      ensure_legacy_planes pt planes = .error (.nonPrimaryPlane s.handle)) ∧
    (∀ s rest, planes = s :: rest → pt s.handle = .ok PlaneType.primary →
      s.config = none →
      ensure_legacy_planes pt planes = .error (.noFramebuffer s.handle)) ∧
    (∀ s rest cfg, planes = s :: rest → pt s.handle = .ok PlaneType.primary →
      s.config = some cfg →
      (cfg.dst.loc ≠ (⟨0, 0⟩ : Point Int) ∨ cfg.src.loc ≠ (⟨0, 0⟩ : Point ℚ) ∨
        cfg.src.size ≠ cfg.dst.size.toQ ∨ cfg.transform ≠ Transform.normal) →
      ensure_legacy_planes pt planes = .error (.unsupportedPlaneConfiguration s.handle)) := by
  refine ⟨ensure_legacy_planes_ok_iff pt planes, ?_, ?_, ?_, ?_, ?_⟩
  · intro e h
    exact ⟨by simp [testStateLegacy, h], by simp [commitLegacy, h], by simp [pageFlipLegacy, h]⟩
  · rintro rfl; rfl
  · rintro s rest t rfl hpt hne
    simp [ensure_legacy_planes, hpt, hne]
  · rintro s rest rfl hpt hcfg
    simp [ensure_legacy_planes, hpt, hcfg]
  · rintro s rest cfg rfl hpt hcfg hviol
    by_cases h1 : cfg.dst.loc = (⟨0, 0⟩ : Point Int)
    · by_cases h2 : cfg.src.loc = (⟨0, 0⟩ : Point ℚ)
      · by_cases h3 : cfg.src.size = cfg.dst.size.toQ
        · have h4 : cfg.transform ≠ Transform.normal := by
            rcases hviol with h | h | h | h
            · exact absurd h1 h
            · exact absurd h2 h
            · exact absurd h3 h
            · exact h
          simp [ensure_legacy_planes, hpt, hcfg, h1, h2, h3, h4]
        · simp [ensure_legacy_planes, hpt, hcfg, h1, h2, h3]
      · simp [ensure_legacy_planes, hpt, hcfg, h1, h2]
    · simp [ensure_legacy_planes, hpt, hcfg, h1]

/-- Witness for `legacy_validation_spec` at the concrete empty sequence. -/
theorem legacy_validation_spec_witness :
    ensure_legacy_planes ptPrim [] = .error Error.noPlane :=
  (legacy_validation_spec ptPrim st00 (.ok ()) [] false false).2.2.1 rfl

/-- Counterexample to C1 as stated: a sequence of TWO fully valid primary
plane states makes legacy `commit` succeed (issuing `SetCrtc` with the first
state's framebuffer) instead of failing with the unsupported-plane
configuration error that "exactly one plane state" would demand. -/
theorem legacy_validation_counterexample :
    commitLegacy ptPrim st00 (.ok ()) [s0, s0] = (.ok st00, [KernelCall.setCrtc 5 0]) ∧
    (commitLegacy ptPrim st00 (.ok ()) [s0, s0]).1 ≠
      .error (.unsupportedPlaneConfiguration 1) := by
  exact ⟨by decide, by decide⟩

/-- C4 (amended): on a plane sequence passing the legacy validation,
`test_state` with `allow_modeset = false` succeeds without any kernel call,
and with `allow_modeset = true` performs a real modeset (`SetCrtc` against
the pending mode) and reports the kernel outcome. -/
theorem legacy_test_state_spec (pt : Nat → Except Error PlaneType) (st : EngineState)
    (ko : Except Error Unit) (planes : List PlaneState) (fb : Nat)
    (h : ensure_legacy_planes pt planes = .ok fb) :
    testStateLegacy pt st ko planes false = (.ok (), []) ∧
    testStateLegacy pt st ko planes true = (ko, [KernelCall.setCrtc fb st.pending.mode]) := by
  exact ⟨by simp [testStateLegacy, h], by simp [testStateLegacy, h]⟩

/-- Witness for `legacy_test_state_spec` on a concrete valid plane state. -/
theorem legacy_test_state_spec_witness :
    testStateLegacy ptPrim st00 (.error .testFailed) [s0] false = (.ok (), []) ∧
    testStateLegacy ptPrim st00 (.error .testFailed) [s0] true =
      (.error .testFailed, [KernelCall.setCrtc 5 0]) :=
  legacy_test_state_spec ptPrim st00 (.error .testFailed) [s0] 5 (by decide)

/-- Counterexample to C4 as stated: with an empty plane sequence the legacy
`test_state(allow_modeset = false)` does NOT return success — the façade's
validation fails first with `NoPlane`. -/
theorem legacy_test_state_counterexample :
    testStateLegacy ptPrim st00 (.ok ()) [] false = (.error Error.noPlane, []) := by
  decide

/-- C5: `clear_plane` on a legacy surface always fails with the non-primary
plane error carrying the given handle, whatever the plane (even the primary),
and issues no kernel call. -/
theorem legacy_clear_plane_fails
    (atomicClear : Nat → Except Error Unit × List KernelCall) (plane : Nat) :
    clear_plane SurfaceInternal.legacy atomicClear plane =
      (.error (.nonPrimaryPlane plane), []) := rfl

/-- C6: `from_damage` with an empty damage iterator returns success carrying
none and issues no blob-creation ioctl, for every device, src and dst. -/
theorem from_damage_empty (createBlob : List ModeRect → Except String Nat)
    (src : Rect ℚ) (dst : Rect Int) :
    from_damage createBlob src dst [] = (.ok none, []) := rfl

/-- Non-mutating operations preserve equality of the two snapshots. -/
theorem applyOp_preserves_eq (env : ConnEnv) (st : EngineState) (o : Op)
    (h : st.current = st.pending) (hm : o.isMutator = false) :
    (applyOp env st o).current = (applyOp env st o).pending := by
  cases o with
  | addConnector c => simp [Op.isMutator] at hm
  | removeConnector c => simp [Op.isMutator] at hm
  | setConnectors l => simp [Op.isMutator] at hm
  | useMode m => simp [Op.isMutator] at hm
  | commitOp ok => cases ok <;> simp [applyOp, commitEngine, h]
  | pageFlipOp ok => cases ok <;> simp [applyOp, commitEngine, h]
  | testStateOp => simpa [applyOp] using h

/-- Sequences of non-mutating operations preserve snapshot equality. -/
theorem runOps_preserves_eq (env : ConnEnv) (ops : List Op) (st : EngineState)
    (h : st.current = st.pending) (hm : ∀ o ∈ ops, o.isMutator = false) :
    (runOps env ops st).current = (runOps env ops st).pending := by
  induction ops generalizing st with
  | nil => simpa [runOps] using h
  | cons o rest ih =>
    have h1 := applyOp_preserves_eq env st o h (hm o (by simp))
    have h2 := ih (applyOp env st o) h1 (fun o2 ho2 => hm o2 (by simp [ho2]))
    simpa [runOps] using h2

/-- C2: immediately after a successful commit the current snapshot equals the
pending snapshot by value, `commit_pending` returns false, and it stays false
across any sequence of operations that contains none of the four mutators
(`add_connector`, `remove_connector`, `set_connectors`, `use_mode`). -/
theorem commit_resets_pending (env : ConnEnv) (st st1 : EngineState)
    (h : commitEngine true st = .ok st1) :
    st1.current = st1.pending ∧ commit_pending st1 = false ∧
    ∀ ops : List Op, (∀ o ∈ ops, o.isMutator = false) →
      commit_pending (runOps env ops st1) = false := by
  have heq : EngineState.mk st.pending st.pending = st1 := by
    simpa [commitEngine] using h
  subst heq
  refine ⟨rfl, by simp [commit_pending], ?_⟩
  intro ops hm
  have h2 := runOps_preserves_eq env ops ⟨st.pending, st.pending⟩ rfl hm
  simp [commit_pending]
  exact h2.symm

/-- Witness for `commit_resets_pending` at a concrete state with a pending
mode change, followed by a non-mutating test. -/
theorem commit_resets_pending_witness :
    commit_pending (runOps envConnAll [Op.testStateOp, Op.commitOp true]
      ⟨⟨1, ∅⟩, ⟨1, ∅⟩⟩) = false := by
  have h := commit_resets_pending envConnAll ⟨⟨0, ∅⟩, ⟨1, ∅⟩⟩ ⟨⟨1, ∅⟩, ⟨1, ∅⟩⟩ rfl
  exact h.2.2 [Op.testStateOp, Op.commitOp true] (by decide)

/-- A plane absent from the key list looks up to none. -/
theorem lookup_eq_none_of_not_mem (r : Registry) (p : Nat)
    (h : p ∉ r.map (fun e => e.1)) : Registry.lookup r p = none := by
  induction r with
  | nil => rfl
  | cons e rest ih =>
    obtain ⟨q, cq, nq⟩ := e
    rw [List.map_cons, List.mem_cons] at h
    push_neg at h
    have hqn : ¬(q = p) := fun hq2 => h.1 hq2.symm
    simp only [Registry.lookup, if_neg hqn]
    exact ih h.2

/-- Claiming a plane mapped to a different crtc fails. -/
theorem claim_ne_none (r : Registry) (p c c0 n : Nat)
    (hl : Registry.lookup r p = some (c0, n)) (hne : c ≠ c0) :
    Registry.claim r p c = none := by
  induction r with
  | nil => simp [Registry.lookup] at hl
  | cons e rest ih =>
    obtain ⟨q, cq, nq⟩ := e
    by_cases hq : q = p
    · subst hq
      simp [Registry.lookup] at hl
      simp [Registry.claim, hl.1, Ne.symm hne]
    · simp [Registry.lookup, hq] at hl
      simp [Registry.claim, hq, ih hl]

/-- Claiming an unmapped plane succeeds and appends a fresh count-1 entry. -/
theorem lookup_none_claim (r : Registry) (p c : Nat)
    (h : Registry.lookup r p = none) :
    Registry.claim r p c = some (r ++ [(p, c, 1)]) := by
  induction r with
  | nil => rfl
  | cons e rest ih =>
    obtain ⟨q, cq, nq⟩ := e
    by_cases hq : q = p
    · simp [Registry.lookup, hq] at h
    · simp [Registry.lookup, hq] at h
      simp [Registry.claim, hq, ih h]

/-- A successful claim leaves the plane mapped to the claimed crtc with a
positive refcount. -/
theorem claim_lookup_self (r : Registry) (p c : Nat) (r1 : Registry)
    (h : Registry.claim r p c = some r1) :
    ∃ n, Registry.lookup r1 p = some (c, n) ∧ 1 ≤ n := by
  induction r generalizing r1 with
  | nil =>
    simp [Registry.claim] at h
    exact ⟨1, by simp [← h, Registry.lookup], le_refl 1⟩
  | cons e rest ih =>
    obtain ⟨q, cq, nq⟩ := e
    by_cases hq : q = p
    · subst hq
      by_cases hc : cq = c
      · subst hc
        simp [Registry.claim] at h
        exact ⟨nq + 1, by simp [← h, Registry.lookup], by omega⟩
      · simp [Registry.claim, hc] at h
    · simp [Registry.claim, hq] at h
      obtain ⟨r2, h2, rfl⟩ := h
      obtain ⟨n, hn, hn1⟩ := ih r2 h2
      exact ⟨n, by simp [Registry.lookup, hq, hn], hn1⟩

/-- A successful claim either appends the plane as a new key or keeps the key
list unchanged. -/
theorem claim_keys (r : Registry) (p c : Nat) (r1 : Registry)
    (h : Registry.claim r p c = some r1) :
    r1.map (fun e => e.1) = r.map (fun e => e.1) ++ [p] ∨
    r1.map (fun e => e.1) = r.map (fun e => e.1) := by
  induction r generalizing r1 with
  | nil =>
    simp [Registry.claim] at h
    left
    simp [← h]
  | cons e rest ih =>
    obtain ⟨q, cq, nq⟩ := e
    by_cases hq : q = p
    · subst hq
      by_cases hc : cq = c
      · subst hc
        simp [Registry.claim] at h
        right
        simp [← h]
      · simp [Registry.claim, hc] at h
    · simp [Registry.claim, hq] at h
      obtain ⟨r2, h2, rfl⟩ := h
      rcases ih r2 h2 with h3 | h3
      · left; simp [h3]
      · right; simp [h3]

/-- A successful claim preserves registry well-formedness. -/
theorem claim_WF (r : Registry) (p c : Nat) (r1 : Registry) (hwf : r.WF)
    (h : Registry.claim r p c = some r1) : r1.WF := by
  induction r generalizing r1 with
  | nil =>
    simp [Registry.claim] at h
    subst h
    exact ⟨by simp, by simp⟩
  | cons e rest ih =>
    obtain ⟨q, cq, nq⟩ := e
    obtain ⟨hnd, hcnt⟩ := hwf
    rw [List.map_cons, List.nodup_cons] at hnd
    by_cases hq : q = p
    · subst hq
      by_cases hc : cq = c
      · subst hc
        simp [Registry.claim] at h
        subst h
        constructor
        · rw [List.map_cons, List.nodup_cons]
          exact hnd
        · intro e he
          rcases List.mem_cons.mp he with rfl | he
          · exact Nat.le_add_left 1 nq
          · exact hcnt e (List.mem_cons_of_mem _ he)
      · simp [Registry.claim, hc] at h
    · simp [Registry.claim, hq] at h
      obtain ⟨r2, h2, rfl⟩ := h
      have hwf2 : Registry.WF rest :=
        ⟨hnd.2, fun e he => hcnt e (List.mem_cons_of_mem _ he)⟩
      have hr2 := ih r2 hwf2 h2
      constructor
      · rw [List.map_cons, List.nodup_cons]
        refine ⟨?_, hr2.1⟩
        intro hmem
        rcases claim_keys rest p c r2 h2 with hk | hk
        · rw [hk, List.mem_append] at hmem
          rcases hmem with hmem | hmem
          · exact hnd.1 hmem
          · exact hq (by simpa using hmem)
        · rw [hk] at hmem
          exact hnd.1 hmem
      · intro e he
        rcases List.mem_cons.mp he with rfl | he
        · exact hcnt (q, cq, nq) (List.mem_cons_self _ _)
        · exact hr2.2 e he

/-- Unfolding equation for `Registry.lookup` on a cons cell. -/
theorem lookup_cons (q cq nq : Nat) (rest : Registry) (p : Nat) :
    Registry.lookup ((q, cq, nq) :: rest) p
      = if q = p then some (cq, nq) else Registry.lookup rest p := rfl

/-- Unfolding equation for `Registry.release` on a cons cell. -/
theorem release_cons (q cq nq : Nat) (rest : Registry) (p : Nat) :
    Registry.release ((q, cq, nq) :: rest) p
      = if q = p then (if nq ≤ 1 then rest else (q, cq, nq - 1) :: rest)
        else (q, cq, nq) :: Registry.release rest p := rfl

/-- Releasing only ever shrinks the key list. -/
theorem release_keys_sublist (r : Registry) (p : Nat) :
    List.Sublist ((Registry.release r p).map (fun e => e.1))
      (r.map (fun e => e.1)) := by
  induction r with
  | nil => exact List.Sublist.refl _
  | cons e rest ih =>
    obtain ⟨q, cq, nq⟩ := e
    by_cases hq : q = p
    · subst hq
      by_cases hn : nq ≤ 1
      · simp only [Registry.release, if_pos rfl, if_pos hn, List.map_cons]
        exact (List.Sublist.refl _).cons _
      · simp only [Registry.release, if_pos rfl, if_neg hn, List.map_cons]
        exact (List.Sublist.refl _).cons₂ _
    · simp only [Registry.release, if_neg hq, List.map_cons]
      exact ih.cons₂ _

/-- Releasing preserves registry well-formedness. -/
theorem release_WF (r : Registry) (p : Nat) (hwf : r.WF) :
    (Registry.release r p).WF := by
  induction r with
  | nil => exact hwf
  | cons e rest ih =>
    obtain ⟨q, cq, nq⟩ := e
    obtain ⟨hnd, hcnt⟩ := hwf
    rw [List.map_cons, List.nodup_cons] at hnd
    have hwfr : Registry.WF rest :=
      ⟨hnd.2, fun e he => hcnt e (List.mem_cons_of_mem _ he)⟩
    by_cases hq : q = p
    · by_cases hn : nq ≤ 1
      · rw [release_cons, if_pos hq, if_pos hn]
        exact hwfr
      · rw [release_cons, if_pos hq, if_neg hn]
        refine ⟨?_, ?_⟩
        · rw [List.map_cons, List.nodup_cons]
          exact hnd
        · intro e he
          rcases List.mem_cons.mp he with rfl | he
          · show 1 ≤ nq - 1
            omega
          · exact hcnt e (List.mem_cons_of_mem _ he)
    · rw [release_cons, if_neg hq]
      refine ⟨?_, ?_⟩
      · rw [List.map_cons, List.nodup_cons]
        exact ⟨fun hmem => hnd.1 ((release_keys_sublist rest p).subset hmem),
          (ih hwfr).1⟩
      · intro e he
        rcases List.mem_cons.mp he with rfl | he
        · exact hcnt (q, cq, nq) (List.mem_cons_self _ _)
        · exact (ih hwfr).2 e he

/-- Releasing decrements the refcount and removes the entry exactly when the
count was 1. -/
theorem lookup_release (r : Registry) (p c0 n : Nat) (hwf : r.WF)
    (hl : Registry.lookup r p = some (c0, n)) :
    (n = 1 → Registry.lookup (Registry.release r p) p = none) ∧
    (2 ≤ n → Registry.lookup (Registry.release r p) p = some (c0, n - 1)) := by
  induction r with
  | nil => simp [Registry.lookup] at hl
  | cons e rest ih =>
    obtain ⟨q, cq, nq⟩ := e
    obtain ⟨hnd, hcnt⟩ := hwf
    rw [List.map_cons, List.nodup_cons] at hnd
    have hwfr : Registry.WF rest :=
      ⟨hnd.2, fun e he => hcnt e (List.mem_cons_of_mem _ he)⟩
    by_cases hq : q = p
    · rw [lookup_cons, if_pos hq] at hl
      obtain ⟨hcq, hnq⟩ : cq = c0 ∧ nq = n := by simpa using hl
      constructor
      · intro h1
        have hn : nq ≤ 1 := by omega
        rw [release_cons, if_pos hq, if_pos hn]
        exact lookup_eq_none_of_not_mem rest p (hq ▸ hnd.1)
      · intro h2
        have hn : ¬(nq ≤ 1) := by omega
        rw [release_cons, if_pos hq, if_neg hn, lookup_cons, if_pos hq, hcq, hnq]
    · rw [lookup_cons, if_neg hq] at hl
      have := ih hwfr hl
      constructor
      · intro h1
        rw [release_cons, if_neg hq, lookup_cons, if_neg hq]
        exact this.1 h1
      · intro h2
        rw [release_cons, if_neg hq, lookup_cons, if_neg hq]
        exact this.2 h2

/-- In a well-formed registry no plane is mapped to two distinct crtcs. -/
theorem mem_crtc_unique (r : Registry) (hwf : r.WF) (p c1 n1 c2 n2 : Nat)
    (h1 : (p, c1, n1) ∈ r) (h2 : (p, c2, n2) ∈ r) : c1 = c2 := by
  induction r with
  | nil => simp at h1
  | cons e rest ih =>
    obtain ⟨hnd, hcnt⟩ := hwf
    rw [List.map_cons, List.nodup_cons] at hnd
    have hwfr : Registry.WF rest :=
      ⟨hnd.2, fun e he => hcnt e (List.mem_cons_of_mem _ he)⟩
    rcases List.mem_cons.mp h1 with rfl | h1t
    · rcases List.mem_cons.mp h2 with heq | h2t
      · simp at heq
        exact heq.1.symm
      · exact absurd (List.mem_map_of_mem (fun e => e.1) h2t) hnd.1
    · rcases List.mem_cons.mp h2 with rfl | h2t
      · exact absurd (List.mem_map_of_mem (fun e => e.1) h1t) hnd.1
      · exact ih hwfr h1t h2t

/-- C3: after a successful `claim_plane(p)` for crtc A, every claim of `p`
for a different crtc B fails; the entry persists (refusing B) as long as the
refcount is positive, releasing decrements and frees the entry exactly at
count 1, after which a claim for B succeeds again; and a well-formed registry
never maps one plane to two distinct crtcs. -/
theorem plane_claim_exclusive (r : Registry) (p cA cB : Nat) (hwf : r.WF)
    (hne : cB ≠ cA) :
    (∀ r1, Registry.claim r p cA = some r1 →
      r1.WF ∧ (∃ n, Registry.lookup r1 p = some (cA, n) ∧ 1 ≤ n) ∧
      Registry.claim r1 p cB = none) ∧
    (∀ r2 n, Registry.WF r2 → Registry.lookup r2 p = some (cA, n) →
      Registry.claim r2 p cB = none ∧ (Registry.release r2 p).WF ∧
      (n = 1 → Registry.lookup (Registry.release r2 p) p = none) ∧
      (2 ≤ n → Registry.lookup (Registry.release r2 p) p = some (cA, n - 1))) ∧
    (∀ r3 : Registry, Registry.lookup r3 p = none →
      Registry.claim r3 p cB = some (r3 ++ [(p, cB, 1)])) ∧
    (∀ r4 : Registry, Registry.WF r4 → ∀ c1 n1 c2 n2,
      (p, c1, n1) ∈ r4 → (p, c2, n2) ∈ r4 → c1 = c2) := by
  refine ⟨?_, ?_, ?_, ?_⟩
  · intro r1 h
    obtain ⟨n, hn, hn1⟩ := claim_lookup_self r p cA r1 h
    exact ⟨claim_WF r p cA r1 hwf h, ⟨n, hn, hn1⟩,
      claim_ne_none r1 p cB cA n hn hne⟩
  · intro r2 n hwf2 hl
    exact ⟨claim_ne_none r2 p cB cA n hl hne, release_WF r2 p hwf2,
      (lookup_release r2 p cA n hwf2 hl).1, (lookup_release r2 p cA n hwf2 hl).2⟩
  · intro r3 h
    exact lookup_none_claim r3 p cB h
  · intro r4 hwf4 c1 n1 c2 n2 h1 h2
    exact mem_crtc_unique r4 hwf4 p c1 n1 c2 n2 h1 h2

/-- Witness for `plane_claim_exclusive`: surface A (crtc 10) claims plane 5
on the empty registry; surface B (crtc 20) is then refused. -/
theorem plane_claim_exclusive_witness :
    Registry.claim [(5, 10, 1)] 5 20 = none :=
  ((plane_claim_exclusive [] 5 10 20 ⟨List.nodup_nil, by simp⟩ (by decide)).1
    [(5, 10, 1)] rfl).2.2

/-- The computable rational floor agrees with the mathematical floor. -/
theorem qfloor_eq (q : ℚ) : qfloor q = ⌊q⌋ := Rat.floor_def.symm

/-- The computable rational ceiling agrees with the mathematical ceiling. -/
theorem qceil_eq (q : ℚ) : qceil q = ⌈q⌉ := by
  rw [qceil, qfloor_eq, Int.floor_neg, neg_neg]

/-- C7: on a non-empty damage list (and a non-degenerate dst rectangle, where
the rational model of the `f64` division applies), `from_damage` issues
exactly one blob-creation ioctl whose payload has exactly one quad per input
rectangle in input order, and each quad is obtained by upscaling the
rectangle by `src.size / dst.size` per axis, translating by `src.loc`,
rounding outward (floor the location, ceil the far edge), with
`x2 = saturating_add(x1, width)` and `y2 = saturating_add(y1, height)`. -/
theorem from_damage_marshalling (createBlob : List ModeRect → Except String Nat)
    (src : Rect ℚ) (dst : Rect Int) (damage : List (Rect Int))
    (hne : damage ≠ []) (hw : 0 < dst.size.w) (hh : 0 < dst.size.h) :
    (from_damage createBlob src dst damage).2
      = [KernelCall.createBlob (damage.map (damageToModeRect src dst))] ∧
    (damage.map (damageToModeRect src dst)).length = damage.length ∧
    ∀ r ∈ damage, ∃ t : Rect ℚ,
      t = ⟨⟨(r.loc.x : ℚ) * (src.size.w / (dst.size.w : ℚ)) + src.loc.x,
            (r.loc.y : ℚ) * (src.size.h / (dst.size.h : ℚ)) + src.loc.y⟩,
           ⟨(r.size.w : ℚ) * (src.size.w / (dst.size.w : ℚ)),
            (r.size.h : ℚ) * (src.size.h / (dst.size.h : ℚ))⟩⟩ ∧
      damageToModeRect src dst r =
        ⟨⌊t.loc.x⌋, ⌊t.loc.y⌋,
         saturatingAdd ⌊t.loc.x⌋ (⌈t.loc.x + t.size.w⌉ - ⌊t.loc.x⌋),
         saturatingAdd ⌊t.loc.y⌋ (⌈t.loc.y + t.size.h⌉ - ⌊t.loc.y⌋)⟩ := by
  have hmap : (damage.map (damageToModeRect src dst)).isEmpty = false := by
    rw [List.isEmpty_eq_false]
    simpa using hne
  refine ⟨?_, by simp, ?_⟩
  · rw [from_damage]
    simp only [hmap, Bool.false_eq_true, if_false]
    cases createBlob (damage.map (damageToModeRect src dst)) <;> rfl
  · intro r hr
    refine ⟨_, rfl, ?_⟩
    simp only [damageToModeRect, upscaleRect, toI32Up, Rect.toQ, Size.toQ,
      qfloor_eq, qceil_eq]

/-- Witness for `from_damage_marshalling` on a concrete 10×10 damage
rectangle with unit scale. -/
theorem from_damage_marshalling_witness :
    (from_damage cb0 srcQ dstI [d0]).2
      = [KernelCall.createBlob [damageToModeRect srcQ dstI d0]] ∧
    damageToModeRect srcQ dstI d0 = ⟨0, 0, 10, 10⟩ := by
  have h := from_damage_marshalling cb0 srcQ dstI [d0] (by simp) (by decide) (by decide)
  refine ⟨by simpa using h.1, ?_⟩
  simp [damageToModeRect, upscaleRect, toI32Up, qfloor, qceil, Rect.toQ, Size.toQ,
    saturatingAdd, i32min, i32max, srcQ, dstI, d0]

/-- C10: every live `PlaneDamageClips` handle — one produced by `from_damage`
or a clone of such — carries `some` blob value, so the `blob()` accessor's
unwrap cannot panic. -/
theorem damage_blob_live_some (h : PlaneDamageClips) (hl : LiveHandle h) :
    h.blobValue.isSome = true := by
  induction hl with
  | ofFromDamage cb src dst damage h2 trace heq =>
    rw [from_damage] at heq
    split at heq
    · simp at heq
    · split at heq
      · simp at heq
      · simp only [Prod.mk.injEq, Except.ok.injEq, Option.some.injEq] at heq
        obtain ⟨heq1, -⟩ := heq
        rw [← heq1]
        rfl
  | ofClone h2 hl2 ih => exact ih

/-- Witness for `damage_blob_live_some` at a concretely constructed handle. -/
theorem damage_blob_live_some_witness :
    (PlaneDamageClips.mk (PlaneDamageInner.mk (some 7))).blobValue.isSome = true :=
  damage_blob_live_some (PlaneDamageClips.mk (PlaneDamageInner.mk (some 7)))
    (LiveHandle.ofFromDamage cb0 srcQ dstI [d0] _ [KernelCall.createBlob [⟨0, 0, 10, 10⟩]]
      (by simp [from_damage, cb0, damageToModeRect, upscaleRect, toI32Up, qfloor, qceil,
        Rect.toQ, Size.toQ, saturatingAdd, i32min, i32max, srcQ, dstI, d0]))

/-- Membership in the finalized format set: either an accumulated element or
the safe default. -/
theorem mem_finalize (L : List Format) (f : Format) (hf : f ∈ finalizeFormats L) :
    f ∈ L ∨ f = Format.mk argb8888 Modifier.invalid := by
  by_cases hL : L.isEmpty
  · rw [finalizeFormats, if_pos hL] at hf
    right
    simpa using hf
  · rw [finalizeFormats, if_neg hL] at hf
    left
    exact hf

/-- Formats seeded from the legacy format list all carry `INVALID`. -/
theorem seed_modifier (tf : Nat → Option Nat) (codes : List Nat) (g : Format)
    (hg : g ∈ seedFormats tf codes) : g.modifier = Modifier.invalid := by
  obtain ⟨c, -, rfl⟩ := List.mem_map.mp hg
  rfl

/-- Membership in the cursor-augmented set: a seed, or a `LINEAR` variant on
a cursor plane. -/
theorem mem_cursorAugment (t : PlaneType) (seeds : List Format) (f : Format)
    (hf : f ∈ cursorAugment t seeds) :
    f ∈ seeds ∨ (t = PlaneType.cursor ∧ f.modifier = Modifier.linear) := by
  by_cases ht : t = PlaneType.cursor
  · rw [cursorAugment, if_pos ht] at hf
    rcases List.mem_append.mp hf with hs | hs
    · exact Or.inl hs
    · obtain ⟨g, -, rfl⟩ := List.mem_map.mp hs
      exact Or.inr ⟨ht, rfl⟩
  · rw [cursorAugment, if_neg ht] at hf
    exact Or.inl hf

/-- C8: every pair in a successful `supported_formats` result either carries
the `INVALID` modifier, or was advertised by the driver through the
`IN_FORMATS` blob, or belongs to a cursor plane and carries `LINEAR`. -/
theorem supported_formats_sound (env : FormatEnv) (fmts : List Format)
    (h : supported_formats env = .ok fmts) :
    ∀ f ∈ fmts, f.modifier = Modifier.invalid ∨
      (∃ blob, env.inFormatsQuery = .ok (some blob) ∧
        f ∈ blobFormats env.tryFourcc blob) ∨
      (env.planeType = .ok PlaneType.cursor ∧ f.modifier = Modifier.linear) := by
  intro f hf
  rcases hg : env.getPlaneFormats with e | codes
  · rw [supported_formats, hg] at h
    exact absurd h (by simp)
  · rw [supported_formats, hg] at h
    dsimp only at h
    rcases hc : env.capAddFb2 with e2 | n
    · rw [hc] at h
      dsimp only at h
      rcases hpt : env.planeType with e3 | t
      · rw [hpt] at h
        dsimp only at h
        exact absurd h (by simp)
      · rw [hpt] at h
        dsimp only at h
        obtain rfl := Except.ok.inj h
        rcases mem_finalize _ f hf with hfa | rfl
        · rcases mem_cursorAugment t _ f hfa with hs | ⟨ht, hlin⟩
          · exact Or.inl (seed_modifier env.tryFourcc codes f hs)
          · exact Or.inr (Or.inr ⟨by simp [hpt, ht], hlin⟩)
        · exact Or.inl rfl
    · rw [hc] at h
      rcases n with - | n1
      · dsimp only at h
        rcases hpt : env.planeType with e3 | t
        · rw [hpt] at h
          dsimp only at h
          exact absurd h (by simp)
        · rw [hpt] at h
          dsimp only at h
          obtain rfl := Except.ok.inj h
          rcases mem_finalize _ f hf with hfa | rfl
          · rcases mem_cursorAugment t _ f hfa with hs | ⟨ht, hlin⟩
            · exact Or.inl (seed_modifier env.tryFourcc codes f hs)
            · exact Or.inr (Or.inr ⟨by simp [hpt, ht], hlin⟩)
          · exact Or.inl rfl
      · rcases n1 with - | n2
        · dsimp only at h
          rcases hq : env.inFormatsQuery with e4 | ob
          · rw [hq] at h
            dsimp only at h
            exact absurd h (by simp)
          · rw [hq] at h
            rcases ob with - | blob
            · dsimp only at h
              obtain rfl := Except.ok.inj h
              rcases mem_finalize _ f hf with hfa | rfl
              · exact Or.inl (seed_modifier env.tryFourcc codes f hfa)
              · exact Or.inl rfl
            · dsimp only at h
              obtain rfl := Except.ok.inj h
              rcases mem_finalize _ f hf with hfa | rfl
              · rcases List.mem_append.mp hfa with hs | hs
                · exact Or.inl (seed_modifier env.tryFourcc codes f hs)
                · exact Or.inr (Or.inl ⟨blob, by simp [hq], hs⟩)
              · exact Or.inl rfl
        · rcases hpt : env.planeType with e3 | t
          · rw [hpt] at h
            dsimp only at h
            exact absurd h (by simp)
          · rw [hpt] at h
            dsimp only at h
            obtain rfl := Except.ok.inj h
            rcases mem_finalize _ f hf with hfa | rfl
            · rcases mem_cursorAugment t _ f hfa with hs | ⟨ht, hlin⟩
              · exact Or.inl (seed_modifier env.tryFourcc codes f hs)
              · exact Or.inr (Or.inr ⟨by simp [hpt, ht], hlin⟩)
            · exact Or.inl rfl

/-- Witness for `supported_formats_sound` on the overlay fixture. -/
theorem supported_formats_sound_witness :
    (Format.mk argb8888 Modifier.invalid).modifier = Modifier.invalid ∨
    (∃ blob, envOverlay.inFormatsQuery = .ok (some blob) ∧
      Format.mk argb8888 Modifier.invalid ∈ blobFormats envOverlay.tryFourcc blob) ∨
    (envOverlay.planeType = .ok PlaneType.cursor ∧
      (Format.mk argb8888 Modifier.invalid).modifier = Modifier.linear) :=
  supported_formats_sound envOverlay [Format.mk argb8888 Modifier.invalid] (by decide)
    (Format.mk argb8888 Modifier.invalid) (by decide)

/-- On a cursor plane every collected format is present in both its seeded
`INVALID` form and its `LINEAR` variant. -/
theorem cursor_augment_contains (tf : Nat → Option Nat) (codes : List Nat) (c : Nat)
    (hc : c ∈ codes.filterMap tf) :
    Format.mk c Modifier.invalid ∈
      finalizeFormats (cursorAugment PlaneType.cursor (seedFormats tf codes)) ∧
    Format.mk c Modifier.linear ∈
      finalizeFormats (cursorAugment PlaneType.cursor (seedFormats tf codes)) := by
  have hinv : Format.mk c Modifier.invalid ∈ seedFormats tf codes :=
    List.mem_map_of_mem _ hc
  have hca : cursorAugment PlaneType.cursor (seedFormats tf codes)
      = seedFormats tf codes ++
        (seedFormats tf codes).map (fun f => Format.mk f.code Modifier.linear) := by
    rw [cursorAugment, if_pos rfl]
  have hmem1 : Format.mk c Modifier.invalid ∈
      cursorAugment PlaneType.cursor (seedFormats tf codes) := by
    rw [hca]
    exact List.mem_append_left _ hinv
  have hmem2 : Format.mk c Modifier.linear ∈
      cursorAugment PlaneType.cursor (seedFormats tf codes) := by
    rw [hca]
    exact List.mem_append_right _
      (List.mem_map.mpr ⟨Format.mk c Modifier.invalid, hinv, rfl⟩)
  have hne : (cursorAugment PlaneType.cursor (seedFormats tf codes)).isEmpty = false := by
    rw [List.isEmpty_eq_false]
    exact List.ne_nil_of_mem hmem1
  rw [finalizeFormats, if_neg (by simp [hne])]
  exact ⟨hmem1, hmem2⟩

/-- C9 (amended): without the `AddFB2Modifiers` capability, on a cursor
plane, every format collected from the legacy list appears with both the
`INVALID` modifier and a `LINEAR` variant; in particular, when `ARGB8888` is
among the collected formats, the result contains both `(ARGB8888, INVALID)`
and `(ARGB8888, LINEAR)`. -/
theorem cursor_linear_fallback (env : FormatEnv) (fmts : List Format)
    (hcap : env.capAddFb2 ≠ .ok 1)
    (hcur : env.planeType = .ok PlaneType.cursor)
    (h : supported_formats env = .ok fmts) :
    (∀ c ∈ collectedCodes env,
      Format.mk c Modifier.invalid ∈ fmts ∧ Format.mk c Modifier.linear ∈ fmts) ∧
    (argb8888 ∈ collectedCodes env →
      Format.mk argb8888 Modifier.invalid ∈ fmts ∧
      Format.mk argb8888 Modifier.linear ∈ fmts) := by
  suffices hmain : ∀ c ∈ collectedCodes env,
      Format.mk c Modifier.invalid ∈ fmts ∧ Format.mk c Modifier.linear ∈ fmts by
    exact ⟨hmain, fun h2 => hmain argb8888 h2⟩
  intro c hcmem
  rcases hg : env.getPlaneFormats with e | codes
  · rw [supported_formats, hg] at h
    exact absurd h (by simp)
  · have hcc : collectedCodes env = codes.filterMap env.tryFourcc := by
      rw [collectedCodes, hg]
    rw [hcc] at hcmem
    rw [supported_formats, hg] at h
    dsimp only at h
    rcases hc : env.capAddFb2 with e2 | n
    · rw [hc] at h
      dsimp only at h
      rw [hcur] at h
      dsimp only at h
      obtain rfl := Except.ok.inj h
      exact cursor_augment_contains env.tryFourcc codes c hcmem
    · rw [hc] at h
      rcases n with - | n1
      · dsimp only at h
        rw [hcur] at h
        dsimp only at h
        obtain rfl := Except.ok.inj h
        exact cursor_augment_contains env.tryFourcc codes c hcmem
      · rcases n1 with - | n2
        · exact absurd hc hcap
        · rw [hcur] at h
          dsimp only at h
          obtain rfl := Except.ok.inj h
          exact cursor_augment_contains env.tryFourcc codes c hcmem

/-- Witness for `cursor_linear_fallback` on the cursor fixture advertising
`ARGB8888`. -/
theorem cursor_linear_fallback_witness :
    Format.mk argb8888 Modifier.invalid ∈
      [Format.mk argb8888 Modifier.invalid, Format.mk argb8888 Modifier.linear] ∧
    Format.mk argb8888 Modifier.linear ∈
      [Format.mk argb8888 Modifier.invalid, Format.mk argb8888 Modifier.linear] :=
  (cursor_linear_fallback envCursor
      [Format.mk argb8888 Modifier.invalid, Format.mk argb8888 Modifier.linear]
      (by decide) rfl (by decide)).2 (by decide)

/-- Counterexample to C9 as stated: on a cursor plane whose legacy format
list is empty (capability absent), the result is only the safe default
`(ARGB8888, INVALID)` — the `LINEAR` variant is NOT present, because the
fallback loop runs before the empty-set default is inserted. -/
theorem cursor_linear_counterexample :
    supported_formats envCursorEmpty = .ok [Format.mk argb8888 Modifier.invalid] ∧
    Format.mk argb8888 Modifier.linear ∉ [Format.mk argb8888 Modifier.invalid] :=
  ⟨by decide, by decide⟩

end DrmSpec
